import Mathlib

/-!
# Verification of the uefi-rs core against its specification

Shallow embedding of the parts of the `uefi-rs` repository that the
verified claims are about:

* the process-wide system-table singleton of `uefi-services/src/lib.rs`
  (`init`, `system_table`);
* the UCS-2 character conversion of `src/data_types/chars.rs`
  (`Char16::try_from`);
* the console output writer of `uefi-logger/src/writer.rs`
  (`OutputWriter::write_str` with its `flush_buffer`, `add_char` and
  `add_ch` closures);
* the directory abstraction of `src/proto/media/file/dir.rs`
  (`Directory` and its forwarding methods, `read_entry`,
  `reset_entry_readout`).

Machine integers are modelled as `Nat` (with explicit truncation where the
source casts), fallible operations return `Option` or `Except`, and the
firmware boundary (`output_string`, the `File` protocol calls) is modelled
by recording the issued calls in the state or by abstract operation
records.
-/

namespace Uefi

/-- Status codes used by the modelled operations, from the `uefi::Status`
numeric space (`src/error.rs` declares the full set; only the codes the
claims touch are modelled). -/
inductive Status where
  | success
  | unsupported
  | protocolError
  | noMedia
  | deviceError
  | volumeCorrupted
  | bufferTooSmall
deriving DecidableEq

/-! ## The process-wide table singleton (`uefi-services/src/lib.rs`)

The `static mut SYSTEM_TABLE: Option<&'static SystemTable>` global together
with the one-time side initialization performed by `init` (`init_logger`,
`init_alloc`) is modelled as an explicit state record.  A table reference is
identified by a `Nat`.  The `logger_inits` and `alloc_inits` fields count
how many times the corresponding side initialization has run. -/

structure ServicesState where
  system_table : Option Nat
  logger_inits : Nat
  alloc_inits : Nat
deriving DecidableEq

/-- The state before any call: `SYSTEM_TABLE` is `None` and no side
initialization has run. -/
def initialServices : ServicesState := ⟨none, 0, 0⟩

/-- `uefi-services::init` (src/uefi-services/src/lib.rs:52-64): if
`SYSTEM_TABLE.is_some()` it returns early doing nothing; otherwise it
installs the table and then runs `init_logger()` and `init_alloc()`. -/
def init (st : Nat) (s : ServicesState) : ServicesState :=
  if s.system_table.isSome then s
  else
    { system_table := some st
      logger_inits := s.logger_inits + 1
      alloc_inits := s.alloc_inits + 1 }

/-- `uefi-services::system_table` (src/uefi-services/src/lib.rs:44-46):
`SYSTEM_TABLE.expect(...)`.  The panic taken when the singleton is still
`None` is modelled by returning `none`; a `some t` result models a normal
return of the installed reference. -/
def system_table (s : ServicesState) : Option Nat :=
  s.system_table

/-! ## Console output writer (`uefi-logger/src/writer.rs`)

`OutputWriter::write_str` stages UCS-2 units in a stack buffer
`[0u16; BUF_SIZE + 1]` with cursor `i`, flushing to
`output.output_string(buf.as_ptr())` whenever the cursor reaches
`BUF_SIZE` and once more at the end.  The state of one `write_str` call is
modelled explicitly; the firmware calls are recorded in `flushed`, each
entry being the staged payload of one `output_string` call (the units
before the written null terminator).  Rust array indexing panics when out
of bounds, so every buffer store goes through `setChecked`, which returns
`none` exactly when the index is out of bounds; `none` therefore models a
panic.  The firmware output call itself is modelled as succeeding, so the
`fmt::Error` path for a failed `output_string` does not arise. -/

/-- `BUF_SIZE` from `write_str` (src/uefi-logger/src/writer.rs:19). -/
def BUF_SIZE : Nat := 128

/-- The state of one `write_str` call: the staging buffer (a
`BUF_SIZE + 1`-slot array of `u16`), the cursor `i`, and the trace of
payloads issued to `output_string`. -/
structure WriterState where
  buf : List Nat
  i : Nat
  flushed : List (List Nat)
deriving DecidableEq

/-- `let mut buf = [0u16; BUF_SIZE + 1]; let mut i = 0;` with no firmware
call issued yet. -/
def initWriterState : WriterState :=
  ⟨List.replicate (BUF_SIZE + 1) 0, 0, []⟩

/-- A bounds-checked array store: Rust `buf[n] = v` panics (modelled by
`none`) when `n` is out of bounds. -/
def setChecked (l : List Nat) (n v : Nat) : Option (List Nat) :=
  if n < l.length then some (l.set n v) else none

/-- The `flush_buffer` closure (src/uefi-logger/src/writer.rs:26-33):
`buf[*i] = 0; *i = 0; output_string(buf.as_ptr())`.  The `output_string`
call reads the buffer up to the terminator just written at index `i`, so
the recorded payload is the first `i` slots. -/
def flush_buffer (st : WriterState) : Option WriterState :=
  match setChecked st.buf st.i 0 with
  | none => none
  | some b => some ⟨b, 0, st.flushed ++ [b.take st.i]⟩

/-- The `add_char` closure (src/uefi-logger/src/writer.rs:37-51):
`buf[i] = ch; i += 1; if i == BUF_SIZE { flush_buffer(...) }`. -/
def add_char (ch : Nat) (st : WriterState) : Option WriterState :=
  match setChecked st.buf st.i ch with
  | none => none
  | some b =>
    if st.i + 1 = BUF_SIZE then flush_buffer ⟨b, st.i + 1, st.flushed⟩
    else some ⟨b, st.i + 1, st.flushed⟩

/-- The `add_ch` closure (src/uefi-logger/src/writer.rs:52-64): add the
unit, and if it is a line feed (`'\n' as u16 = 10`) immediately add a
synthesized carriage return (`'\r' as u16 = 13`). -/
def add_ch (ch : Nat) (st : WriterState) : Option WriterState :=
  match add_char ch st with
  | none => none
  | some st1 => if ch = 10 then add_char 13 st1 else some st1

/-- Modelled from the spec: `ucs2::ucs2_encoder`.  The module is declared
(`pub mod ucs2;` in src/src/lib.rs:49) but its body is not under `src/`.
Per the spec (§4.4): iterate the input as a sequence of code points; fail
immediately with a conversion error — emitting nothing for that code
point, no multi-unit splitting — when a code point exceeds the
representable range `0xffff`; otherwise feed the unit to the output
callback, propagating any callback failure.  The returned `Bool` is
`false` exactly when a conversion error was reported; a callback panic
propagates as `none`.  A native `char` code point and its code unit share
the same numeric value, so both are `Nat`. -/
def ucs2_encoder : List Nat → WriterState → Option (WriterState × Bool)
  | [], st => some (st, true)
  | cp :: rest, st =>
    if cp ≤ 0xffff then
      match add_ch cp st with
      | none => none
      | some st1 => ucs2_encoder rest st1
    else some (st, false)

/-- `OutputWriter::write_str` (src/uefi-logger/src/writer.rs:17-72): run
the encoder with `add_ch` over the input — the statement
`ucs2::ucs2_encoder(s, add_ch);` discards the encoder's result — and then
always flush whatever is left in the buffer, returning that final flush's
result.  With the firmware output modelled as succeeding, the call's
`fmt::Result` is `Ok` whenever the model returns `some`; `none` models a
panic. -/
def write_str (cps : List Nat) : Option WriterState :=
  match ucs2_encoder cps initWriterState with
  | none => none
  | some (st1, _) => flush_buffer st1

/-- Specification-side description of the emitted unit stream: the input
code units with every line feed followed by a synthesized carriage
return. -/
def expandCR : List Nat → List Nat
  | [] => []
  | u :: rest => if u = 10 then 10 :: 13 :: expandCR rest else u :: expandCR rest

/-- The emitted unit stream as the claim words it: the input code units
with every line feed preceded by a synthesized carriage return.  This
follows the claim's words, not the source; `expandCR` is what the code
does (`add_ch` stores the line feed first and the carriage return after
it). -/
def expandCRBefore : List Nat → List Nat
  | [] => []
  | u :: rest =>
    if u = 10 then 13 :: 10 :: expandCRBefore rest else u :: expandCRBefore rest

/-- Proof-side helper: push a list of units through `add_char` one by
one. -/
def addAll : List Nat → WriterState → Option WriterState
  | [], st => some st
  | u :: rest, st =>
    match add_char u st with
    | none => none
    | some st1 => addAll rest st1

/-- The writer invariant between unit stores: the staging buffer has its
full `BUF_SIZE + 1` slots and the cursor is strictly below `BUF_SIZE`. -/
def WInv (st : WriterState) : Prop :=
  st.buf.length = BUF_SIZE + 1 ∧ st.i < BUF_SIZE

/-- The staged, not yet flushed payload of a writer state. -/
def staged (st : WriterState) : List Nat :=
  st.buf.take st.i

/-! ## UCS-2 character conversion (`src/src/data_types/chars.rs`) -/

/-- `Char16::try_from::<char>` (src/src/data_types/chars.rs:25-36): the
code point is taken `as u32`; if it is at most `0xffff` the value is
truncated `as u16` and wrapped, otherwise `CharConversionError` is
returned.  A `char` code point is modelled as a `Nat`; the `as u16` cast
is the explicit `% 2 ^ 16`. -/
def char16_try_from (cp : Nat) : Option Nat :=
  if cp ≤ 0xffff then some (cp % 2 ^ 16) else none

/-! ## Directory abstraction (`src/src/proto/media/file/dir.rs`)

`Directory<'a>` is a newtype over `File<'a>`.  The `File` implementation
itself is not under `src/` (only `dir.rs` is), so the `File` operations
`read_entry` and `reset_entry_readout` depend on — `File::read` on a
directory node and `File::set_position` — are modelled from the spec,
while the operations `Directory` merely forwards (`open`, `delete`,
`get_info`, `set_info`, `flush`) are kept fully abstract in a record of
operations, so that the forwarding theorems hold for every possible
`File` implementation. -/

/-- A decoded directory-entry record (`FileInfo`): a variable-length
record modelled by the exact buffer size it requires and an opaque
payload (the file name). -/
structure FileInfo where
  size : Nat
  name : List Nat
deriving DecidableEq

/-- Modelled from the spec: the `File` node underlying a directory
(`File`'s implementation is not under `src/`).  Per the spec (§3, §4.3) a
directory node's `read` yields one entry record per call in
firmware-defined order, terminating in an empty result, and the node
carries a cursor position; the cursor is modelled as the index of the
next entry to yield. -/
structure File where
  entries : List FileInfo
  position : Nat
deriving DecidableEq

/-- A caller-supplied byte buffer, modelled by its length and by the
misalignment of its start address relative to `FileInfo`'s required
alignment. -/
structure Buffer where
  len : Nat
  misalign : Nat
deriving DecidableEq

/-- `FileInfo`'s alignment requirement (a `u64`-aligned record). -/
def fileInfoAlignment : Nat := 8

/-- Modelled from the spec: `FileInfo::realign_storage` (not under
`src/`).  Per the spec (§4.3, §8): if the buffer's start does not satisfy
the record's alignment, the usable window is shifted forward within the
same buffer, reducing usable capacity by `(alignment - k) mod alignment`
for a start misaligned by `k`. -/
def realign_storage (b : Buffer) : Buffer :=
  { len := b.len - ((fileInfoAlignment - b.misalign % fileInfoAlignment) % fileInfoAlignment)
    misalign := 0 }

/-- Modelled from the spec: `File::read` on a directory node (not under
`src/`).  Per the spec (§4.3): each call yields exactly one entry record
(written into the buffer, returning its size and advancing the cursor),
or size `0` for "no more entries" — a Success outcome, not an Error; a
too-small buffer fails with `BUFFER_TOO_SMALL` carrying the exact
required size for that single entry and does not advance.  The `ok`
result carries the reported size together with the record the firmware
wrote into the buffer (`none` when nothing was written). -/
def File.read (f : File) (cap : Nat) :
    File × Except (Status × Nat) (Nat × Option FileInfo) :=
  match f.entries.get? f.position with
  | none => (f, Except.ok (0, none))
  | some e =>
    if cap < e.size then (f, Except.error (Status.bufferTooSmall, e.size))
    else ({ f with position := f.position + 1 }, Except.ok (e.size, some e))

/-- Modelled from the spec: `File::set_position` (not under `src/`).  Per
the spec (§4.3): offset `0` means "rewind to directory start" for
enumeration resets; the spec gives no meaning to a nonzero offset on a
directory node, so it is modelled as rejected with `unsupported`. -/
def File.set_position (f : File) (offset : Nat) : File × Status :=
  if offset = 0 then ({ f with position := 0 }, Status.success)
  else (f, Status.unsupported)

/-- `Directory<'a>(File<'a>)` (src/src/proto/media/file/dir.rs:10): a
newtype wrapper over the underlying `File` node. -/
structure Directory where
  toFile : File
deriving DecidableEq

/-- The operations `Directory` forwards without reinterpretation, as an
abstract record: one field per `File` method, with abstract argument and
result types, so nothing about their behaviour is assumed. -/
structure FileForwardOps (αo ρo ρd αg ρg αs ρs ρf : Type) where
  openF : File → αo → ρo
  deleteF : File → ρd
  getInfoF : File → αg → ρg
  setInfoF : File → αs → ρs
  flushF : File → ρf

/-- `Directory::open` (src/src/proto/media/file/dir.rs:25-32):
`self.0.open(filename, open_mode, attributes)` — the three arguments are
bundled as one abstract argument value. -/
def Directory.openD {αo ρo ρd αg ρg αs ρs ρf : Type}
    (ops : FileForwardOps αo ρo ρd αg ρg αs ρs ρf) (d : Directory) (a : αo) : ρo :=
  ops.openF d.toFile a

/-- `Directory::delete` (src/src/proto/media/file/dir.rs:40-42):
`self.0.delete()`. -/
def Directory.deleteD {αo ρo ρd αg ρg αs ρs ρf : Type}
    (ops : FileForwardOps αo ρo ρd αg ρg αs ρs ρf) (d : Directory) : ρd :=
  ops.deleteF d.toFile

/-- `Directory::get_info` (src/src/proto/media/file/dir.rs:89-94):
`self.0.get_info::<Info>(buffer)`. -/
def Directory.getInfoD {αo ρo ρd αg ρg αs ρs ρf : Type}
    (ops : FileForwardOps αo ρo ρd αg ρg αs ρs ρf) (d : Directory) (a : αg) : ρg :=
  ops.getInfoF d.toFile a

/-- `Directory::set_info` (src/src/proto/media/file/dir.rs:99-101):
`self.0.set_info(info)`. -/
def Directory.setInfoD {αo ρo ρd αg ρg αs ρs ρf : Type}
    (ops : FileForwardOps αo ρo ρd αg ρg αs ρs ρf) (d : Directory) (a : αs) : ρs :=
  ops.setInfoF d.toFile a

/-- `Directory::flush` (src/src/proto/media/file/dir.rs:106-108):
`self.0.flush()`. -/
def Directory.flushD {αo ρo ρd αg ρg αs ρs ρf : Type}
    (ops : FileForwardOps αo ρo ρd αg ρg αs ρs ρf) (d : Directory) : ρf :=
  ops.flushF d.toFile

/-- `Directory::read_entry` (src/src/proto/media/file/dir.rs:63-78):
realign the buffer, read into it, and on success decode a `FileInfo` from
the buffer when the reported size is nonzero, or return `none` (no more
entries) when it is zero; errors pass through with their `(Status, usize)`
payload.  Decoding the record the firmware wrote is `FileInfo::from_uefi`
on the buffer; in the model the buffer content after the read is the
record carried by `File.read`'s `ok` result. -/
def Directory.read_entry (d : Directory) (b : Buffer) :
    Directory × Except (Status × Nat) (Option FileInfo) :=
  let b := realign_storage b
  match File.read d.toFile b.len with
  | (f, Except.error e) => (⟨f⟩, Except.error e)
  | (f, Except.ok (size, data)) =>
    (⟨f⟩, Except.ok (if size ≠ 0 then data else none))

/-- `Directory::reset_entry_readout` (src/src/proto/media/file/dir.rs:81-83):
`self.0.set_position(0)`. -/
def Directory.reset_entry_readout (d : Directory) : Directory × Status :=
  match File.set_position d.toFile 0 with
  | (f, s) => (⟨f⟩, s)

end Uefi

namespace Uefi

/-! # Theorems -/

/-! ## List helpers -/

/-- Setting a slot at or beyond the taken prefix leaves the prefix
unchanged. -/
theorem take_set_le (l : List Nat) (m n v : Nat) (h : m ≤ n) :
    (l.set n v).take m = l.take m := by
  induction l generalizing m n with
  | nil => simp
  | cons a t ih =>
    cases n with
    | zero =>
      have hm : m = 0 := Nat.le_zero.mp h
      subst hm; simp
    | succ n =>
      cases m with
      | zero => simp
      | succ m =>
        simp only [List.set, List.take]
        rw [ih m n (Nat.le_of_succ_le_succ h)]

/-- Taking one past a freshly set slot appends the new value to the
prefix before it. -/
theorem take_set_succ (l : List Nat) (n v : Nat) (h : n < l.length) :
    (l.set n v).take (n + 1) = l.take n ++ [v] := by
  induction l generalizing n with
  | nil => simp at h
  | cons a t ih =>
    cases n with
    | zero => simp
    | succ n =>
      simp only [List.set, List.take, List.cons_append]
      rw [ih n (by simpa using h)]

/-! ## Writer run lemmas -/

/-- A flush on a full-length buffer with an in-range cursor writes the
terminator, records the staged payload, and resets the cursor. -/
theorem flush_buffer_spec (st : WriterState)
    (hlen : st.buf.length = BUF_SIZE + 1) (hi : st.i ≤ BUF_SIZE) :
    flush_buffer st = some ⟨st.buf.set st.i 0, 0, st.flushed ++ [staged st]⟩ := by
  have h : st.i < st.buf.length := by omega
  simp only [flush_buffer, setChecked, if_pos h]
  rw [take_set_le st.buf st.i st.i 0 (Nat.le_refl _)]
  rfl

/-- One `add_char` step from an invariant state: it succeeds, preserves
the invariant, advances the cursor modulo the capacity, flushes exactly
when the capacity is reached, and the total emitted stream (flushed
payloads followed by the staged payload) grows by the stored unit. -/
theorem add_char_spec (u : Nat) (st : WriterState) (h : WInv st) :
    ∃ st', add_char u st = some st' ∧ WInv st' ∧
      st'.i = (st.i + 1) % BUF_SIZE ∧
      st'.flushed.length = st.flushed.length + (st.i + 1) / BUF_SIZE ∧
      st'.flushed.flatten ++ staged st' = st.flushed.flatten ++ staged st ++ [u] := by
  obtain ⟨hlen, hi⟩ := h
  have hset : st.i < st.buf.length := by omega
  have hb : setChecked st.buf st.i u = some (st.buf.set st.i u) := by
    simp [setChecked, hset]
  have hstage : (st.buf.set st.i u).take (st.i + 1) = staged st ++ [u] :=
    take_set_succ st.buf st.i u hset
  by_cases hfull : st.i + 1 = BUF_SIZE
  · have hlen1 : (st.buf.set st.i u).length = BUF_SIZE + 1 := by
      simp [List.length_set, hlen]
    have hfl := flush_buffer_spec ⟨st.buf.set st.i u, st.i + 1, st.flushed⟩
      hlen1 (Nat.le_of_eq hfull)
    simp only [staged] at hfl
    refine ⟨⟨(st.buf.set st.i u).set (st.i + 1) 0, 0,
        st.flushed ++ [(st.buf.set st.i u).take (st.i + 1)]⟩, ?_, ?_, ?_, ?_, ?_⟩
    · simp only [add_char, hb, if_pos hfull]
      exact hfl
    · constructor
      · simp [List.length_set, hlen]
      · simp [BUF_SIZE]
    · simp only [hfull, Nat.mod_self]
    · simp only [List.length_append, List.length_cons, List.length_nil,
        hfull, Nat.div_self (by simp [BUF_SIZE] : 0 < BUF_SIZE)]
    · show (st.flushed ++ [(st.buf.set st.i u).take (st.i + 1)]).flatten ++
        ((st.buf.set st.i u).set (st.i + 1) 0).take 0 =
        st.flushed.flatten ++ staged st ++ [u]
      simp only [hstage, List.take_zero, List.append_nil,
        List.flatten_append, List.flatten_cons, List.flatten_nil]
      simp [List.append_assoc]
  · have hlt : st.i + 1 < BUF_SIZE := Nat.lt_of_le_of_ne hi hfull
    refine ⟨⟨st.buf.set st.i u, st.i + 1, st.flushed⟩, ?_, ?_, ?_, ?_, ?_⟩
    · simp only [add_char, hb, if_neg hfull]
    · exact ⟨by simp [List.length_set, hlen], hlt⟩
    · simp [Nat.mod_eq_of_lt hlt]
    · simp [Nat.div_eq_of_lt hlt]
    · show st.flushed.flatten ++ (st.buf.set st.i u).take (st.i + 1) =
        st.flushed.flatten ++ staged st ++ [u]
      rw [hstage, List.append_assoc]

/-- Pushing a unit list through `add_char` from an invariant state:
cursor, flush count and emitted stream after the whole list. -/
theorem addAll_spec (us : List Nat) (st : WriterState) (h : WInv st) :
    ∃ st', addAll us st = some st' ∧ WInv st' ∧
      st'.i = (st.i + us.length) % BUF_SIZE ∧
      st'.flushed.length = st.flushed.length + (st.i + us.length) / BUF_SIZE ∧
      st'.flushed.flatten ++ staged st' = st.flushed.flatten ++ staged st ++ us := by
  induction us generalizing st with
  | nil =>
    refine ⟨st, rfl, h, ?_, ?_, by simp⟩
    · have h2 := h.2
      simp only [BUF_SIZE] at h2 ⊢
      simp only [List.length_nil, Nat.add_zero]
      omega
    · have h2 := h.2
      simp only [BUF_SIZE] at h2 ⊢
      simp only [List.length_nil, Nat.add_zero]
      omega
  | cons u rest ih =>
    obtain ⟨st1, e1, h1, hi1, hf1, hj1⟩ := add_char_spec u st h
    obtain ⟨st', e2, h2, hi2, hf2, hj2⟩ := ih st1 h1
    refine ⟨st', ?_, h2, ?_, ?_, ?_⟩
    · simp only [addAll, e1]
      exact e2
    · rw [hi2, hi1]
      have h2i := h.2
      simp only [BUF_SIZE, List.length_cons] at h2i ⊢
      omega
    · rw [hf2, hf1, hi1]
      have h2i := h.2
      simp only [BUF_SIZE, List.length_cons] at h2i ⊢
      omega
    · rw [hj2, hj1]
      simp [List.append_assoc]

/-- `add_ch` stores the unit and, on a line feed, the synthesized
carriage return: it equals `addAll` on the corresponding one- or
two-unit list. -/
theorem add_ch_eq_addAll (u : Nat) (st : WriterState) :
    add_ch u st = addAll (if u = 10 then [10, 13] else [u]) st := by
  by_cases h : u = 10
  · subst h
    rw [if_pos rfl]
    simp only [add_ch, addAll]
    cases add_char 10 st with
    | none => rfl
    | some st1 =>
      simp only [if_pos rfl]
      cases add_char 13 st1 <;> rfl
  · rw [if_neg h]
    simp only [add_ch, addAll]
    cases add_char u st with
    | none => rfl
    | some st1 => simp [if_neg h]

/-- `addAll` splits over list concatenation. -/
theorem addAll_append (xs ys : List Nat) (st : WriterState) :
    addAll (xs ++ ys) st =
      match addAll xs st with
      | none => none
      | some st1 => addAll ys st1 := by
  induction xs generalizing st with
  | nil => rfl
  | cons x xs ih =>
    simp only [List.cons_append, addAll]
    cases add_char x st with
    | none => rfl
    | some st1 => exact ih st1

/-- `expandCR` unfolds over a cons as the one- or two-unit expansion of
the head followed by the expansion of the tail. -/
theorem expandCR_cons (u : Nat) (rest : List Nat) :
    expandCR (u :: rest) = (if u = 10 then [10, 13] else [u]) ++ expandCR rest := by
  by_cases h : u = 10 <;> simp [expandCR, h]

/-- On an input whose code points are all representable, the encoder is
exactly `addAll` over the carriage-return-expanded unit stream, and
reports no conversion error. -/
theorem ucs2_encoder_eq_addAll (cps : List Nat) (h : ∀ cp ∈ cps, cp ≤ 0xffff)
    (st : WriterState) :
    ucs2_encoder cps st = (addAll (expandCR cps) st).map (fun s => (s, true)) := by
  induction cps generalizing st with
  | nil => rfl
  | cons cp rest ih =>
    have hcp : cp ≤ 0xffff := h cp (by simp)
    have hrest : ∀ c ∈ rest, c ≤ 0xffff := fun c hc => h c (by simp [hc])
    rw [expandCR_cons, addAll_append]
    simp only [ucs2_encoder, if_pos hcp, add_ch_eq_addAll]
    cases addAll (if cp = 10 then [10, 13] else [cp]) st with
    | none => rfl
    | some st1 => exact ih hrest st1

/-- The encoder never hits an out-of-bounds store from an invariant
state, and preserves the invariant — on any input, representable or
not. -/
theorem ucs2_encoder_total (cps : List Nat) (st : WriterState) (h : WInv st) :
    ∃ st1 ok, ucs2_encoder cps st = some (st1, ok) ∧ WInv st1 := by
  induction cps generalizing st with
  | nil => exact ⟨st, true, rfl, h⟩
  | cons cp rest ih =>
    by_cases hcp : cp ≤ 0xffff
    · obtain ⟨st1, e1, h1, _, _, _⟩ :=
        addAll_spec (if cp = 10 then [10, 13] else [cp]) st h
      obtain ⟨st2, ok, e2, h2⟩ := ih st1 h1
      refine ⟨st2, ok, ?_, h2⟩
      simp only [ucs2_encoder, if_pos hcp, add_ch_eq_addAll, e1]
      exact e2
    · exact ⟨st, false, by simp [ucs2_encoder, hcp], h⟩

/-- The initial writer state satisfies the invariant. -/
theorem initWriterState_inv : WInv initWriterState := by
  constructor <;> simp [initWriterState, BUF_SIZE]

/-- The full run of `write_str` on a representable input: it succeeds,
the concatenated flushed payloads are exactly the expanded unit stream,
and the number of `output_string` calls is the expanded length divided by
the capacity, plus one for the final flush. -/
theorem write_str_run (cps : List Nat) (h : ∀ cp ∈ cps, cp ≤ 0xffff) :
    ∃ st, write_str cps = some st ∧
      st.flushed.flatten = expandCR cps ∧
      st.flushed.length = (expandCR cps).length / BUF_SIZE + 1 := by
  obtain ⟨st1, e1, h1, hi1, hf1, hj1⟩ :=
    addAll_spec (expandCR cps) initWriterState initWriterState_inv
  have henc : ucs2_encoder cps initWriterState = some (st1, true) := by
    rw [ucs2_encoder_eq_addAll cps h, e1]
    rfl
  have hfl := flush_buffer_spec st1 h1.1 (Nat.le_of_lt h1.2)
  simp only [initWriterState, staged, List.take_zero, List.flatten_nil,
    List.nil_append, List.append_nil, List.length_nil, Nat.zero_add] at hj1 hf1
  refine ⟨⟨st1.buf.set st1.i 0, 0, st1.flushed ++ [staged st1]⟩, ?_, ?_, ?_⟩
  · simp only [write_str, henc]
    exact hfl
  · show (st1.flushed ++ [staged st1]).flatten = expandCR cps
    simp only [List.flatten_append, List.flatten_cons, List.flatten_nil,
      List.append_nil, staged]
    exact hj1
  · show (st1.flushed ++ [staged st1]).length = (expandCR cps).length / BUF_SIZE + 1
    simp only [List.length_append, List.length_cons, List.length_nil, hf1]

/-- C1: the table singleton is write-once.  Starting from the uninitialized
state, `init t1` followed by `init t2` leaves the state exactly as after
`init t1` alone — the second call is a silent no-op (first writer wins),
so `t1` stays installed and the logger/allocator side initialization does
not run again (the counters are part of the state equality). -/
theorem init_write_once (t1 t2 : Nat) :
    init t2 (init t1 initialServices) = init t1 initialServices ∧
    (init t1 initialServices).system_table = some t1 ∧
    (init t1 initialServices).logger_inits = 1 ∧
    (init t1 initialServices).alloc_inits = 1 := by
  refine ⟨?_, rfl, rfl, rfl⟩
  rfl

/-- C9: the singleton read accessor is process-fatal before `init` and
returns the installed reference afterwards.  In the uninitialized state
`system_table` takes the fatal path (modelled by `none`, the
`Option::expect` panic); after `init t` from the uninitialized state it
returns exactly `t`. -/
theorem system_table_spec (t : Nat) :
    system_table initialServices = none ∧
    system_table (init t initialServices) = some t := by
  exact ⟨rfl, rfl⟩

/-- C2: on an input whose code points are all representable, one
`write_str` call performs exactly
`ceil(total_emitted_units / BUF_SIZE)` firmware flushes, where
`total_emitted_units` counts every staged unit — synthesized carriage
returns included — plus the final terminator; the formula yields at least
one flush even for empty input (the final flush always happens). -/
theorem write_str_flush_count (cps : List Nat) (h : ∀ cp ∈ cps, cp ≤ 0xffff) :
    ∃ st, write_str cps = some st ∧
      st.flushed.length = ((expandCR cps).length + 1 + (BUF_SIZE - 1)) / BUF_SIZE := by
  obtain ⟨st, e, _, hc⟩ := write_str_run cps h
  refine ⟨st, e, ?_⟩
  rw [hc]
  simp only [BUF_SIZE]
  omega

/-- Witness for C2: the input "H\n" (units 72, 10) stages 72, 10 and a
synthesized 13; with the final terminator that is 4 emitted units, hence
`ceil(4 / 128) = 1` flush. -/
theorem write_str_flush_count_witness :
    ∃ st, write_str [72, 10] = some st ∧
      st.flushed.length = ((expandCR [72, 10]).length + 1 + (BUF_SIZE - 1)) / BUF_SIZE :=
  write_str_flush_count [72, 10] (by decide)

/-- C3 counterexample: the claim as stated — every line-feed unit
*preceded* by a synthesized carriage-return unit — is false at the input
consisting of the single line-feed code point: the program flushes
`[10, 13]` (carriage return after the line feed, per `add_ch` at
src/uefi-logger/src/writer.rs:53-64), while the claim's sequence
`expandCRBefore [10]` is `[13, 10]`. -/
theorem write_str_concat_counterexample :
    (write_str [10]).map (fun st => st.flushed.flatten) = some [10, 13] ∧
    (write_str [10]).map (fun st => st.flushed.flatten) ≠
      some (expandCRBefore [10]) := by
  obtain ⟨st, e, hj, _⟩ := write_str_run [10] (by decide)
  have hv : (write_str [10]).map (fun st => st.flushed.flatten) = some [10, 13] := by
    rw [e, Option.map_some', hj]
    rfl
  refine ⟨hv, ?_⟩
  rw [hv]
  decide

/-- C3 (amended: the synthesized carriage return follows the line feed,
as the code emits it, rather than preceding it): on an input whose code
points are all representable, the concatenation of all payloads flushed
to the firmware output during one `write_str` call (terminators ignored)
is exactly the input unit sequence with every line feed followed by a
synthesized carriage return. -/
theorem write_str_concat (cps : List Nat) (h : ∀ cp ∈ cps, cp ≤ 0xffff) :
    ∃ st, write_str cps = some st ∧ st.flushed.flatten = expandCR cps := by
  obtain ⟨st, e, hj, _⟩ := write_str_run cps h
  exact ⟨st, e, hj⟩

/-- Witness for C3: the input "h\ni" (units 104, 10, 105) is flushed as
104, 10, 13, 105. -/
theorem write_str_concat_witness :
    ∃ st, write_str [104, 10, 105] = some st ∧
      st.flushed.flatten = expandCR [104, 10, 105] :=
  write_str_concat [104, 10, 105] (by decide)

/-- C4 (the code contradicts the claim): on the input consisting of the
single code point `0x1F600 > 0xffff`, the encoder reports a conversion
error (second component `false`), but `write_str` — which discards the
encoder's result at src/uefi-logger/src/writer.rs:67 — still performs the
final flush, issuing one firmware `output_string` call and returning that
flush's successful result instead of failing. -/
theorem write_str_unrepresentable_still_flushes :
    (ucs2_encoder [0x1F600] initWriterState).map (fun p => p.2) = some false ∧
    (write_str [0x1F600]).map (fun st => st.flushed.length) = some 1 := by
  constructor
  · rfl
  · have henc : ucs2_encoder [0x1F600] initWriterState =
        some (initWriterState, false) := rfl
    have hfl := flush_buffer_spec initWriterState
      (by simp [initWriterState, BUF_SIZE]) (by simp [initWriterState, BUF_SIZE])
    simp only [write_str, henc, hfl, Option.map_some]
    simp [initWriterState, staged]

/-- C10: `write_str` never performs an out-of-bounds store into the
`BUF_SIZE + 1`-slot staging buffer: every store in the model is
bounds-checked (`setChecked` returns `none` exactly on an out-of-bounds
index, modelling the Rust indexing panic), so a `some` result for every
input — representable or not — means the cursor is always below
`BUF_SIZE` before a character store, every flush resets it to zero, and
the terminator store lands at an index at most `BUF_SIZE`. -/
theorem write_str_in_bounds (cps : List Nat) :
    ∃ st, write_str cps = some st := by
  obtain ⟨st1, ok, e1, h1⟩ :=
    ucs2_encoder_total cps initWriterState initWriterState_inv
  have hfl := flush_buffer_spec st1 h1.1 (Nat.le_of_lt h1.2)
  refine ⟨⟨st1.buf.set st1.i 0, 0, st1.flushed ++ [staged st1]⟩, ?_⟩
  simp only [write_str, e1]
  exact hfl

/-- C5: every forwarded `Directory` operation — `open`, `delete`,
`get_info`, `set_info`, `flush` — returns exactly the result of the
identically named operation on the underlying `File` with the same
arguments, for every possible `File` implementation of those operations
(they are universally quantified, so the directory methods cannot contain
any logic of their own). -/
theorem directory_forwards {αo ρo ρd αg ρg αs ρs ρf : Type}
    (ops : FileForwardOps αo ρo ρd αg ρg αs ρs ρf) (d : Directory)
    (ao : αo) (ag : αg) (as : αs) :
    Directory.openD ops d ao = ops.openF d.toFile ao ∧
    Directory.deleteD ops d = ops.deleteF d.toFile ∧
    Directory.getInfoD ops d ag = ops.getInfoF d.toFile ag ∧
    Directory.setInfoD ops d as = ops.setInfoF d.toFile as ∧
    Directory.flushD ops d = ops.flushF d.toFile :=
  ⟨rfl, rfl, rfl, rfl, rfl⟩

/-- C6: once a directory's entries are exhausted, the next `read_entry`
returns success carrying no entry — not an error; and in general
`read_entry` yields no entry exactly when the underlying read reports
size `0`, and yields the decoded record whenever the size is nonzero. -/
theorem read_entry_spec (d : Directory) (b : Buffer) :
    (d.toFile.entries.length ≤ d.toFile.position →
      (Directory.read_entry d b).2 = Except.ok none) ∧
    (∀ sz data, (File.read d.toFile (realign_storage b).len).2 = Except.ok (sz, data) →
      (Directory.read_entry d b).2 = Except.ok (if sz = 0 then none else data)) := by
  constructor
  · intro h
    have hget : d.toFile.entries[d.toFile.position]? = none :=
      List.getElem?_eq_none h
    simp [Directory.read_entry, File.read, hget]
  · intro sz data hr
    simp only [Directory.read_entry]
    rcases he : File.read d.toFile (realign_storage b).len with ⟨f, r⟩
    rw [he] at hr
    simp only at hr
    subst hr
    by_cases hz : sz = 0 <;> simp [hz]

/-- Witness for C6: a directory with no entries and cursor `0` is
exhausted; `read_entry` into a 64-byte buffer returns `ok none`. -/
theorem read_entry_spec_witness :
    (Directory.read_entry ⟨⟨[], 0⟩⟩ ⟨64, 0⟩).2 = Except.ok none :=
  (read_entry_spec ⟨⟨[], 0⟩⟩ ⟨64, 0⟩).1 (by decide)

/-- C7: `reset_entry_readout` is exactly `set_position 0` on the
underlying `File` node with its status returned unchanged, and it rewinds
enumeration to the start: the resulting cursor is `0`, so the remaining
enumeration sequence is the full entry list. -/
theorem reset_entry_readout_spec (d : Directory) :
    Directory.reset_entry_readout d =
      (⟨(File.set_position d.toFile 0).1⟩, (File.set_position d.toFile 0).2) ∧
    (Directory.reset_entry_readout d).1.toFile.position = 0 ∧
    (Directory.reset_entry_readout d).1.toFile.entries.drop
        (Directory.reset_entry_readout d).1.toFile.position = d.toFile.entries := by
  refine ⟨rfl, rfl, ?_⟩
  show (d.toFile.entries).drop 0 = d.toFile.entries
  exact List.drop_zero _

/-- C8: converting a native character to a 16-bit code unit succeeds,
preserving the code-point value, exactly when the code point is at most
`0xffff`, and fails otherwise; the result is a single code unit (the
`Option Nat` codomain can hold no multi-unit sequence). -/
theorem char16_try_from_spec (cp : Nat) :
    char16_try_from cp = if cp ≤ 0xffff then some cp else none := by
  unfold char16_try_from
  by_cases h : cp ≤ 0xffff
  · simp only [if_pos h]
    have : cp % 2 ^ 16 = cp := Nat.mod_eq_of_lt (by omega)
    rw [this]
  · simp only [if_neg h]

end Uefi
